import Mathlib

/-!
Verification of the dextoken contract (src/dextoken.cpp).

The contract is shallowly embedded: the two multi_index tables become
association lists (first matching key is the visible record, mirroring
multi_index lookup), `eosio_assert` becomes an `Except` error carrying the
message and the state at the moment of the abort, and asset/symbol values
become plain structures over `Int`/`String`.  Host facilities that are out
of scope for the ledger core (require_auth, require_recipient) are omitted
as the spec directs; the account-existence oracle `is_account` is passed in
as a boolean function.
-/

namespace Dextoken

/-- Account names: EOSIO account_name is a 64-bit integer; we use `Nat`. -/
abbrev AccountName := Nat

/-- Modelled from the spec: a Symbol is a short uppercase code plus a decimal
precision; two symbols are equal only if code and precision both match.
(The eosio `symbol_type` lives in eosiolib, outside this repository.) -/
structure Sym where
  code : String
  precision : Nat
deriving DecidableEq, Repr

/-- Modelled from the spec: symbol validity means a non-empty short uppercase
code (eosio restricts codes to at most 7 characters A-Z). -/
def Sym.is_valid (s : Sym) : Bool :=
  !s.code.isEmpty && s.code.toList.all Char.isUpper && decide (s.code.length ≤ 7)

/-- The table key of a symbol, `sym.name()` in the source: the code with the
precision dropped. -/
def Sym.name (s : Sym) : String := s.code

/-- An eosio `asset`: a signed 64-bit amount tagged with a symbol.  Amounts
are modelled as unbounded `Int`; the eosio range bound shows up only in
`Asset.is_valid` below. -/
structure Asset where
  amount : Int
  sym : Sym
deriving DecidableEq, Repr

/-- Largest asset magnitude eosio accepts: 2^62 - 1. -/
def maxAmount : Int := 2 ^ 62 - 1

/-- The eosio `asset::is_valid`: the amount is within range and the symbol is
valid. -/
def Asset.is_valid (a : Asset) : Bool :=
  decide (-maxAmount ≤ a.amount) && decide (a.amount ≤ maxAmount) && a.sym.is_valid

/-- The eosio `asset::operator+=` on amounts (the symbol-equality assertion
that guards it in eosiolib has already been checked by every caller in this
contract). -/
def Asset.add (a b : Asset) : Asset := { a with amount := a.amount + b.amount }

/-- The eosio `asset::operator-=` on amounts (symbol equality already checked
by every caller). -/
def Asset.sub (a b : Asset) : Asset := { a with amount := a.amount - b.amount }

/-- A row of the stats table (`currency_stats` in the header): current supply,
maximum supply and issuer.  Keyed by the symbol code. -/
structure CurrencyStat where
  supply : Asset
  max_supply : Asset
  issuer : AccountName
deriving DecidableEq, Repr

/-- Modelled from the spec: persisted state layout — SupplyTable keyed by
symbol-code, BalanceTable keyed by (owner, symbol-code) with an `Asset`
balance per row (the table declarations are in dextoken.hpp, which is not
under src/).  Association lists; the first entry with a key is the visible
record, and the operations only ever emplace a key they have just looked up
as absent. -/
structure State where
  stats : List (String × CurrencyStat)
  accounts : List ((AccountName × String) × Asset)
deriving DecidableEq, Repr

/-- The empty ledger: no symbols, no balances. -/
def State.empty : State := ⟨[], []⟩

/-- Result of an action: the new state, or the eosio_assert message together
with the state at the moment of the abort (exposing any writes already
performed when the assertion fired). -/
abbrev Res := Except (String × State) State

/-- Decidable success test on a result. -/
def resOk : Res → Bool
  | .ok _ => true
  | .error _ => false

/-- Find the value of the first entry with the given key, as multi_index
`find` does. -/
def lookupK {α β : Type} [DecidableEq α] (k : α) : List (α × β) → Option β
  | [] => none
  | (k', v) :: t => if k' = k then some v else lookupK k t

/-- Modify the first entry with the given key, as multi_index `modify` does
to the looked-up record. -/
def modifyK {α β : Type} [DecidableEq α] (k : α) (f : β → β) :
    List (α × β) → List (α × β)
  | [] => []
  | (k', v) :: t => if k' = k then (k', f v) :: t else (k', v) :: modifyK k f t

/-- Erase the first entry with the given key, as multi_index `erase` does to
the looked-up record. -/
def eraseK {α β : Type} [DecidableEq α] (k : α) :
    List (α × β) → List (α × β)
  | [] => []
  | (k', v) :: t => if k' = k then t else (k', v) :: eraseK k t

/-- dextoken::create (dextoken.cpp lines 10-29): register a new symbol.
The emplace writes only the supply symbol, max_supply and issuer; the
default-constructed supply amount is 0. -/
def create (issuer : AccountName) (maximum_supply : Asset) (s : State) : Res :=
  let sym := maximum_supply.sym
  if ¬ sym.is_valid then .error ("invalid symbol name", s) else
  if ¬ maximum_supply.is_valid then .error ("invalid supply", s) else
  if ¬ (maximum_supply.amount > 0) then .error ("max-supply must be positive", s) else
  match lookupK sym.name s.stats with
  | some _ => .error ("token with symbol already exists", s)
  | none =>
      .ok { s with stats :=
              (sym.name, ⟨⟨0, sym⟩, maximum_supply, issuer⟩) :: s.stats }

/-- dextoken::sub_balance (dextoken.cpp lines 165-179): debit `value` from
`owner`, erasing the record if the balance hits exactly zero. -/
def sub_balance (owner : AccountName) (value : Asset) (s : State) : Res :=
  match lookupK (owner, value.sym.name) s.accounts with
  | none => .error ("no balance object found", s)
  | some bal =>
      if ¬ (bal.amount ≥ value.amount) then .error ("overdrawn balance", s) else
      if bal.amount = value.amount then
        .ok { s with accounts := eraseK (owner, value.sym.name) s.accounts }
      else
        .ok { s with accounts :=
                modifyK (owner, value.sym.name) (fun b => b.sub value) s.accounts }

/-- dextoken::add_balance (dextoken.cpp lines 181-195): credit `value` to
`owner`; a missing record is created only when `pay_ram` is true, otherwise
the call aborts with "destination account does not have balance". -/
def add_balance (owner : AccountName) (value : Asset) (_ram_payer : AccountName)
    (pay_ram : Bool) (s : State) : Res :=
  match lookupK (owner, value.sym.name) s.accounts with
  | none =>
      if ¬ (pay_ram = true) then .error ("destination account does not have balance", s)
      else .ok { s with accounts := ((owner, value.sym.name), value) :: s.accounts }
  | some _ =>
      .ok { s with accounts :=
              modifyK (owner, value.sym.name) (fun b => b.add value) s.accounts }

/-- dextoken::burn (dextoken.cpp lines 42-67): decrease supply by `quantity`,
then debit `from`.  Note the supply write happens before sub_balance runs its
own checks. -/
def burn (from_ : AccountName) (quantity : Asset) (memo : String) (s : State) : Res :=
  let sym := quantity.sym
  if ¬ sym.is_valid then .error ("invalid symbol name", s) else
  if ¬ (memo.utf8ByteSize ≤ 256) then .error ("memo has more than 256 bytes", s) else
  match lookupK sym.name s.stats with
  | none => .error ("token with symbol does not exist, create token before burn", s)
  | some st =>
      if ¬ quantity.is_valid then .error ("invalid quantity", s) else
      if ¬ (quantity.amount ≥ 0) then .error ("must burn positive or zero quantity", s) else
      if ¬ (quantity.sym = st.supply.sym) then .error ("symbol precision mismatch", s) else
      if ¬ (quantity.amount ≤ st.supply.amount) then
        .error ("quantity exceeds available supply", s)
      else
        let s1 : State :=
          { s with stats := modifyK sym.name (fun r => { r with supply := r.supply.sub quantity }) s.stats }
        sub_balance from_ quantity s1

/-- dextoken::signup (dextoken.cpp lines 69-97): register a zero balance for
`owner`.  The final credit's pay_ram flag is the default argument declared in
dextoken.hpp (not under src/); modelled from the spec: allow_create = true
for the signup credit. -/
def signup (owner : AccountName) (quantity : Asset) (s : State) : Res :=
  let sym := quantity.sym
  if ¬ sym.is_valid then .error ("invalid symbol name", s) else
  match lookupK sym.name s.stats with
  | none => .error ("token with symbol does not exist, create token before signup", s)
  | some st =>
      match lookupK (owner, sym.name) s.accounts with
      | some _ => .error ("you have already signed up", s)
      | none =>
          if ¬ quantity.is_valid then .error ("invalid quantity", s) else
          if ¬ (quantity.amount = 0) then .error ("quantity exceeds signup allowance", s) else
          if ¬ (quantity.sym = st.supply.sym) then .error ("symbol precision mismatch", s) else
          if ¬ (quantity.amount ≤ st.max_supply.amount - st.supply.amount) then
            .error ("quantity exceeds available supply", s)
          else
            let s1 : State :=
              { s with stats := modifyK sym.name (fun r => { r with supply := r.supply.add quantity }) s.stats }
            add_balance owner quantity owner true s1

/-- dextoken::do_transfer (dextoken.cpp lines 143-163): validate, debit the
source, credit the destination.  `isAccount` is the host's account-existence
oracle; the multi_index `get` aborts with "unable to find key" when the
symbol is unregistered. -/
def do_transfer (isAccount : AccountName → Bool) (from_ to_ : AccountName)
    (quantity : Asset) (memo : String) (pay_ram : Bool) (s : State) : Res :=
  if ¬ (from_ ≠ to_) then .error ("cannot transfer to self", s) else
  if ¬ (isAccount to_ = true) then .error ("to account does not exist", s) else
  match lookupK quantity.sym.name s.stats with
  | none => .error ("unable to find key", s)
  | some st =>
      if ¬ quantity.is_valid then .error ("invalid quantity", s) else
      if ¬ (quantity.amount > 0) then .error ("must transfer positive quantity", s) else
      if ¬ (quantity.sym = st.supply.sym) then .error ("symbol precision mismatch", s) else
      if ¬ (memo.utf8ByteSize ≤ 256) then .error ("memo has more than 256 bytes", s) else
      match sub_balance from_ quantity s with
      | .error e => .error e
      | .ok s1 => add_balance to_ quantity from_ pay_ram s1

/-- dextoken::do_issue (dextoken.cpp lines 109-141): increase supply, credit
the issuer, and when the destination differs from the issuer re-dispatch as a
transfer (modelled, as the spec directs, as a direct in-process call running
the transfer's full validation).  The issuer credit's pay_ram flag is the
dextoken.hpp default argument (not under src/); modelled from the spec:
allow_create = true for the issue credit. -/
def do_issue (isAccount : AccountName → Bool) (to_ : AccountName)
    (quantity : Asset) (memo : String) (pay_ram : Bool) (s : State) : Res :=
  let sym := quantity.sym
  if ¬ sym.is_valid then .error ("invalid symbol name", s) else
  if ¬ (memo.utf8ByteSize ≤ 256) then .error ("memo has more than 256 bytes", s) else
  match lookupK sym.name s.stats with
  | none => .error ("token with symbol does not exist, create token before issue", s)
  | some st =>
      if ¬ quantity.is_valid then .error ("invalid quantity", s) else
      if ¬ (quantity.amount ≥ 0) then .error ("must issue positive quantity or zero", s) else
      if ¬ (quantity.sym = st.supply.sym) then .error ("symbol precision mismatch", s) else
      if ¬ (quantity.amount ≤ st.max_supply.amount - st.supply.amount) then
        .error ("quantity exceeds available supply", s)
      else
        let s1 : State :=
          { s with stats := modifyK sym.name (fun r => { r with supply := r.supply.add quantity }) s.stats }
        match add_balance st.issuer quantity st.issuer true s1 with
        | .error e => .error e
        | .ok s2 =>
            if to_ = st.issuer then .ok s2
            else do_transfer isAccount st.issuer to_ quantity memo pay_ram s2

/-- dextoken::issue (dextoken.cpp lines 32-35). -/
def issue (isAccount : AccountName → Bool) (to_ : AccountName) (quantity : Asset)
    (memo : String) (s : State) : Res :=
  do_issue isAccount to_ quantity memo true s

/-- dextoken::issuefree (dextoken.cpp lines 37-40). -/
def issuefree (isAccount : AccountName → Bool) (to_ : AccountName) (quantity : Asset)
    (memo : String) (s : State) : Res :=
  do_issue isAccount to_ quantity memo false s

/-- dextoken::transfer (dextoken.cpp lines 99-102). -/
def transfer (isAccount : AccountName → Bool) (from_ to_ : AccountName)
    (quantity : Asset) (memo : String) (s : State) : Res :=
  do_transfer isAccount from_ to_ quantity memo true s

/-- dextoken::transferfree (dextoken.cpp lines 104-107). -/
def transferfree (isAccount : AccountName → Bool) (from_ to_ : AccountName)
    (quantity : Asset) (memo : String) (s : State) : Res :=
  do_transfer isAccount from_ to_ quantity memo false s

/-- The contract's action alphabet (the EOSIO_ABI dispatch list). -/
inductive Op where
  | create (issuer : AccountName) (maximum_supply : Asset)
  | issue (to_ : AccountName) (quantity : Asset) (memo : String)
  | issuefree (to_ : AccountName) (quantity : Asset) (memo : String)
  | signup (owner : AccountName) (quantity : Asset)
  | burn (from_ : AccountName) (quantity : Asset) (memo : String)
  | transfer (from_ to_ : AccountName) (quantity : Asset) (memo : String)
  | transferfree (from_ to_ : AccountName) (quantity : Asset) (memo : String)
deriving Repr

/-- Dispatch a single action. -/
def applyOp (isAccount : AccountName → Bool) : Op → State → Res
  | .create issuer m, s => create issuer m s
  | .issue to_ q memo, s => issue isAccount to_ q memo s
  | .issuefree to_ q memo, s => issuefree isAccount to_ q memo s
  | .signup owner q, s => signup owner q s
  | .burn f q memo, s => burn f q memo s
  | .transfer f t q memo, s => transfer isAccount f t q memo s
  | .transferfree f t q memo, s => transferfree isAccount f t q memo s

/-- Run a sequence of actions, `none` as soon as one fails: the states this
reaches are exactly those produced by sequences of successful operations. -/
def runOps (isAccount : AccountName → Bool) : List Op → State → Option State
  | [], s => some s
  | op :: rest, s =>
      match applyOp isAccount op s with
      | .ok s' => runOps isAccount rest s'
      | .error _ => none

/-- Sum of every balance-table row for a symbol code. -/
def sumBal (code : String) : List ((AccountName × String) × Asset) → Int
  | [] => 0
  | (k, v) :: t => (if k.2 = code then v.amount else 0) + sumBal code t

/-- The balance an owner holds of a symbol code: the record's amount, 0 when
no record exists. -/
def balanceOf (s : State) (owner : AccountName) (code : String) : Int :=
  ((lookupK (owner, code) s.accounts).map Asset.amount).getD 0

/-- The spec's example token: code TOK, 4 decimal places (so 100.0000 is the
raw amount 1000000). -/
def wTOK : Sym := ⟨"TOK", 4⟩

/-- An account-existence oracle under which every account exists. -/
def wIA : AccountName → Bool := fun _ => true

/-- Ledger after create(issuer 1, max 1000.0000 TOK) and issue(1, 100.0000). -/
def wState : State :=
  ⟨[("TOK", ⟨⟨1000000, wTOK⟩, ⟨10000000, wTOK⟩, 1⟩)],
   [((1, "TOK"), ⟨1000000, wTOK⟩)]⟩

/-- Ledger after create(issuer 1, max 1000.0000 TOK) and signup(2, 0 TOK):
account 2 holds a record with balance exactly 0. -/
def wSignupState : State :=
  ⟨[("TOK", ⟨⟨0, wTOK⟩, ⟨10000000, wTOK⟩, 1⟩)],
   [((2, "TOK"), ⟨0, wTOK⟩)]⟩

/-- Ledger after create(1, max 0.1000 TOK), issue(1, 0.0100), and
transfer(1 to 2, 0.0070): supply 100, balances 70 and 30. -/
def c4Reach : State :=
  ⟨[("TOK", ⟨⟨100, wTOK⟩, ⟨1000, wTOK⟩, 1⟩)],
   [((2, "TOK"), ⟨70, wTOK⟩), ((1, "TOK"), ⟨30, wTOK⟩)]⟩

/-- The state a burn of 50 from account 1 (holding 30) aborts in: the supply
write has already landed when the overdrawn check fires. -/
def c4Dirty : State :=
  ⟨[("TOK", ⟨⟨50, wTOK⟩, ⟨1000, wTOK⟩, 1⟩)],
   [((2, "TOK"), ⟨70, wTOK⟩), ((1, "TOK"), ⟨30, wTOK⟩)]⟩

/-- The spec's scenario-5 ledger: current supply 40.0000, max 1000.0000. -/
def c5State : State :=
  ⟨[("TOK", ⟨⟨400000, wTOK⟩, ⟨10000000, wTOK⟩, 1⟩)],
   [((2, "TOK"), ⟨400000, wTOK⟩)]⟩

/-- A small ledger where account 1 holds 30 raw units of TOK. -/
def c6State : State :=
  ⟨[("TOK", ⟨⟨30, wTOK⟩, ⟨1000, wTOK⟩, 1⟩)], [((1, "TOK"), ⟨30, wTOK⟩)]⟩

/-- `wState` after the debit step of a 40.0000 transfer out of account 1. -/
def c7s1 : State :=
  ⟨[("TOK", ⟨⟨1000000, wTOK⟩, ⟨10000000, wTOK⟩, 1⟩)],
   [((1, "TOK"), ⟨600000, wTOK⟩)]⟩

/-- `wState` after transfer(1 to 2, 40.0000, pay_ram true). -/
def c9s1 : State :=
  ⟨[("TOK", ⟨⟨1000000, wTOK⟩, ⟨10000000, wTOK⟩, 1⟩)],
   [((2, "TOK"), ⟨400000, wTOK⟩), ((1, "TOK"), ⟨600000, wTOK⟩)]⟩

section TableLemmas

variable {α β : Type} [DecidableEq α]

theorem lookupK_mem {l : List (α × β)} {k : α} {v : β}
    (h : lookupK k l = some v) : (k, v) ∈ l := by
  induction l with
  | nil => simp [lookupK] at h
  | cons p t ih =>
      obtain ⟨k', v'⟩ := p
      by_cases hk : k' = k
      · subst hk
        simp [lookupK] at h
        simp [h]
      · simp [lookupK, hk] at h
        exact List.mem_cons_of_mem _ (ih h)

theorem lookupK_none_notin_keys {l : List (α × β)} {k : α}
    (h : lookupK k l = none) : k ∉ l.map Prod.fst := by
  induction l with
  | nil => simp
  | cons p t ih =>
      obtain ⟨k', v'⟩ := p
      by_cases hk : k' = k
      · subst hk; simp [lookupK] at h
      · simp [lookupK, hk] at h
        intro hmem
        rcases List.mem_cons.mp hmem with h1 | h2
        · exact hk h1.symm
        · exact ih h h2

theorem map_fst_modifyK {l : List (α × β)} {k : α} {f : β → β} :
    (modifyK k f l).map Prod.fst = l.map Prod.fst := by
  induction l with
  | nil => rfl
  | cons p t ih =>
      obtain ⟨k', v'⟩ := p
      by_cases hk : k' = k
      · simp [modifyK, hk]
      · simp [modifyK, hk, ih]

theorem lookupK_modifyK_self {l : List (α × β)} {k : α} {v : β} {f : β → β}
    (h : lookupK k l = some v) : lookupK k (modifyK k f l) = some (f v) := by
  induction l with
  | nil => simp [lookupK] at h
  | cons p t ih =>
      obtain ⟨k', v'⟩ := p
      by_cases hk : k' = k
      · subst hk
        simp [lookupK] at h
        simp [modifyK, lookupK, h]
      · simp [lookupK, hk] at h
        simp [modifyK, lookupK, hk, ih h]

theorem lookupK_modifyK_ne {l : List (α × β)} {k k' : α} {f : β → β}
    (h : k' ≠ k) : lookupK k' (modifyK k f l) = lookupK k' l := by
  induction l with
  | nil => rfl
  | cons p t ih =>
      obtain ⟨k'', v''⟩ := p
      by_cases hk : k'' = k
      · subst hk
        have : k'' ≠ k' := fun hc => h hc.symm
        simp [modifyK, lookupK, this]
      · by_cases hk2 : k'' = k'
        · subst hk2; simp [modifyK, lookupK, hk]
        · simp [modifyK, lookupK, hk, hk2, ih]

theorem mem_modifyK {l : List (α × β)} {k : α} {f : β → β} {p : α × β}
    (h : p ∈ modifyK k f l) :
    p ∈ l ∨ ∃ v, lookupK k l = some v ∧ p = (k, f v) := by
  induction l with
  | nil => simp [modifyK] at h
  | cons q t ih =>
      obtain ⟨k', v'⟩ := q
      by_cases hk : k' = k
      · subst hk
        simp [modifyK] at h
        rcases h with h | h
        · exact Or.inr ⟨v', by simp [lookupK], by simp [h]⟩
        · exact Or.inl (List.mem_cons_of_mem _ h)
      · simp [modifyK, hk] at h
        rcases h with h | h
        · exact Or.inl (by simp [h])
        · rcases ih h with h2 | ⟨v, hv, hp⟩
          · exact Or.inl (List.mem_cons_of_mem _ h2)
          · exact Or.inr ⟨v, by simp [lookupK, hk, hv], hp⟩

theorem modifyK_congr_id {l : List (α × β)} {k : α} {f : β → β}
    (h : ∀ v, f v = v) : modifyK k f l = l := by
  induction l with
  | nil => rfl
  | cons p t ih =>
      obtain ⟨k', v'⟩ := p
      by_cases hk : k' = k
      · simp [modifyK, hk, h v', ih]
      · simp [modifyK, hk, ih]

theorem mem_eraseK {l : List (α × β)} {k : α} {p : α × β}
    (h : p ∈ eraseK k l) : p ∈ l := by
  induction l with
  | nil => simp [eraseK] at h
  | cons q t ih =>
      obtain ⟨k', v'⟩ := q
      by_cases hk : k' = k
      · simp [eraseK, hk] at h
        exact List.mem_cons_of_mem _ h
      · simp [eraseK, hk] at h
        rcases h with h | h
        · exact (by simp [h])
        · exact List.mem_cons_of_mem _ (ih h)

theorem map_fst_eraseK_sublist {l : List (α × β)} {k : α} :
    ((eraseK k l).map Prod.fst).Sublist (l.map Prod.fst) := by
  induction l with
  | nil => simp [eraseK]
  | cons q t ih =>
      obtain ⟨k', v'⟩ := q
      by_cases hk : k' = k
      · simp only [eraseK, if_pos hk, List.map_cons]
        exact List.sublist_cons_of_sublist _ (List.Sublist.refl _)
      · simp only [eraseK, if_neg hk, List.map_cons]
        exact List.Sublist.cons₂ _ ih

theorem lookupK_eraseK_ne {l : List (α × β)} {k k' : α}
    (h : k' ≠ k) : lookupK k' (eraseK k l) = lookupK k' l := by
  induction l with
  | nil => rfl
  | cons q t ih =>
      obtain ⟨k'', v''⟩ := q
      by_cases hk : k'' = k
      · subst hk
        have : k'' ≠ k' := fun hc => h hc.symm
        simp [eraseK, lookupK, this]
      · by_cases hk2 : k'' = k'
        · subst hk2; simp [eraseK, lookupK, hk]
        · simp [eraseK, lookupK, hk, hk2, ih]

theorem lookupK_eraseK_self {l : List (α × β)} {k : α}
    (hnd : (l.map Prod.fst).Nodup) : lookupK k (eraseK k l) = none := by
  induction l with
  | nil => rfl
  | cons q t ih =>
      obtain ⟨k', v'⟩ := q
      simp at hnd
      by_cases hk : k' = k
      · subst hk
        simp only [eraseK, if_pos]
        cases hcase : lookupK k' t with
        | none => rfl
        | some v => exact absurd (lookupK_mem hcase) (hnd.1 v)
      · simp [eraseK, lookupK, hk]
        exact ih hnd.2

end TableLemmas

theorem sumBal_modifyK {l : List ((AccountName × String) × Asset)}
    {k : AccountName × String} {v : Asset} {f : Asset → Asset} {code : String}
    (h : lookupK k l = some v) :
    sumBal code (modifyK k f l) =
      sumBal code l + (if k.2 = code then (f v).amount - v.amount else 0) := by
  induction l with
  | nil => simp [lookupK] at h
  | cons p t ih =>
      obtain ⟨k', v'⟩ := p
      by_cases hk : k' = k
      · subst hk
        simp [lookupK] at h
        subst h
        by_cases hc : k'.2 = code
        · simp [modifyK, sumBal, hc]; ring
        · simp [modifyK, sumBal, hc]
      · simp [lookupK, hk] at h
        by_cases hc : k'.2 = code
        · simp [modifyK, sumBal, hk, hc, ih h]; ring
        · simp [modifyK, sumBal, hk, hc, ih h]

theorem sumBal_eraseK {l : List ((AccountName × String) × Asset)}
    {k : AccountName × String} {v : Asset} {code : String}
    (h : lookupK k l = some v) :
    sumBal code (eraseK k l) =
      sumBal code l - (if k.2 = code then v.amount else 0) := by
  induction l with
  | nil => simp [lookupK] at h
  | cons p t ih =>
      obtain ⟨k', v'⟩ := p
      by_cases hk : k' = k
      · subst hk
        simp [lookupK] at h
        subst h
        by_cases hc : k'.2 = code
        · simp [eraseK, sumBal, hc]
        · simp [eraseK, sumBal, hc]
      · simp [lookupK, hk] at h
        by_cases hc : k'.2 = code
        · simp [eraseK, sumBal, hk, hc, ih h]; ring
        · simp [eraseK, sumBal, hk, hc, ih h]

theorem sumBal_cons {p : (AccountName × String) × Asset}
    {l : List ((AccountName × String) × Asset)} {code : String} :
    sumBal code (p :: l) =
      (if p.1.2 = code then p.2.amount else 0) + sumBal code l := rfl

/-- The accounting invariant of reachable ledger states: per-symbol balance
sums agree with the recorded supply, supplies stay within their bounds,
balances are nonnegative, and both tables carry distinct keys. -/
structure Inv (s : State) : Prop where
  sum_eq : ∀ code st, lookupK code s.stats = some st →
    sumBal code s.accounts = st.supply.amount
  sum_unreg : ∀ code, lookupK code s.stats = none → sumBal code s.accounts = 0
  supply_lb : ∀ code st, lookupK code s.stats = some st → 0 ≤ st.supply.amount
  supply_ub : ∀ code st, lookupK code s.stats = some st →
    st.supply.amount ≤ st.max_supply.amount
  max_pos : ∀ code st, lookupK code s.stats = some st → 0 < st.max_supply.amount
  bal_nonneg : ∀ p ∈ s.accounts, 0 ≤ p.2.amount
  acc_nodup : (s.accounts.map Prod.fst).Nodup
  stats_nodup : (s.stats.map Prod.fst).Nodup

theorem inv_empty : Inv State.empty := by
  constructor <;> simp [State.empty, lookupK, sumBal]

/-- What a successful debit does to the balance table: stats untouched, the
per-symbol sum drops by exactly the debited amount, every surviving record is
an old record or the debited record with the amount subtracted, and key
distinctness is preserved. -/
theorem sub_balance_ok {owner : AccountName} {value : Asset} {s s' : State}
    (h : sub_balance owner value s = .ok s') :
    s'.stats = s.stats ∧
    (∀ code, sumBal code s'.accounts =
       sumBal code s.accounts - (if value.sym.name = code then value.amount else 0)) ∧
    (∀ p ∈ s'.accounts, p ∈ s.accounts ∨
       ∃ b, lookupK (owner, value.sym.name) s.accounts = some b ∧
            value.amount < b.amount ∧ p = ((owner, value.sym.name), b.sub value)) ∧
    ((s.accounts.map Prod.fst).Nodup → (s'.accounts.map Prod.fst).Nodup) := by
  unfold sub_balance at h
  cases hl : lookupK (owner, value.sym.name) s.accounts with
  | none => rw [hl] at h; exact Except.noConfusion h
  | some bal =>
      rw [hl] at h
      dsimp only at h
      split_ifs at h with h1 h2
      · cases h
        refine ⟨rfl, ?_, ?_, ?_⟩
        · intro code
          have hsum := @sumBal_eraseK _ _ _ code hl
          simpa [h2] using hsum
        · intro p hp
          exact Or.inl (mem_eraseK hp)
        · intro hnd
          exact List.Nodup.sublist map_fst_eraseK_sublist hnd
      · cases h
        have hlt : value.amount < bal.amount := lt_of_le_of_ne h1 (fun hc => h2 hc.symm)
        refine ⟨rfl, ?_, ?_, ?_⟩
        · intro code
          have hsum := @sumBal_modifyK _ _ _ (fun b => b.sub value) code hl
          dsimp only [Asset.sub] at hsum ⊢
          rw [hsum]
          by_cases hc : value.sym.name = code
          · rw [if_pos hc, if_pos hc]; ring
          · rw [if_neg hc, if_neg hc]; ring
        · intro p hp
          rcases mem_modifyK hp with hmem | ⟨v, hv, hpv⟩
          · exact Or.inl hmem
          · rw [hl] at hv
            cases hv
            exact Or.inr ⟨bal, rfl, hlt, hpv⟩
        · intro hnd
          simpa [map_fst_modifyK] using hnd

/-- What a successful credit does to the balance table: stats untouched, the
per-symbol sum grows by exactly the credited amount, every record is an old
record, the fresh record holding `value`, or the credited record with the
amount added, and key distinctness is preserved. -/
theorem add_balance_ok {owner rp : AccountName} {value : Asset} {pr : Bool}
    {s s' : State} (h : add_balance owner value rp pr s = .ok s') :
    s'.stats = s.stats ∧
    (∀ code, sumBal code s'.accounts =
       sumBal code s.accounts + (if value.sym.name = code then value.amount else 0)) ∧
    (∀ p ∈ s'.accounts, p ∈ s.accounts ∨ p = ((owner, value.sym.name), value) ∨
       ∃ b, lookupK (owner, value.sym.name) s.accounts = some b ∧
            p = ((owner, value.sym.name), b.add value)) ∧
    ((s.accounts.map Prod.fst).Nodup → (s'.accounts.map Prod.fst).Nodup) := by
  unfold add_balance at h
  cases hl : lookupK (owner, value.sym.name) s.accounts with
  | none =>
      rw [hl] at h
      dsimp only at h
      split_ifs at h with h1
      cases h
      refine ⟨rfl, ?_, ?_, ?_⟩
      · intro code
        simp [sumBal_cons, Int.add_comm]
      · intro p hp
        rcases List.mem_cons.mp hp with hp | hp
        · exact Or.inr (Or.inl hp)
        · exact Or.inl hp
      · intro hnd
        simp only [List.map_cons]
        exact List.nodup_cons.mpr ⟨lookupK_none_notin_keys hl, hnd⟩
  | some bal =>
      rw [hl] at h
      dsimp only at h
      cases h
      refine ⟨rfl, ?_, ?_, ?_⟩
      · intro code
        have hsum := @sumBal_modifyK _ _ _ (fun b => b.add value) code hl
        dsimp only [Asset.add] at hsum ⊢
        rw [hsum]
        by_cases hc : value.sym.name = code
        · rw [if_pos hc, if_pos hc]; ring
        · rw [if_neg hc, if_neg hc]
      · intro p hp
        rcases mem_modifyK hp with hmem | ⟨v, hv, hpv⟩
        · exact Or.inl hmem
        · rw [hl] at hv
          cases hv
          exact Or.inr (Or.inr ⟨bal, rfl, hpv⟩)
      · intro hnd
        simpa [map_fst_modifyK] using hnd

theorem lookupK_cons {α β : Type} [DecidableEq α] {k k' : α} {v : β} {t : List (α × β)} :
    lookupK k ((k', v) :: t) = if k' = k then some v else lookupK k t := rfl

/-- Successful create preserves the ledger invariant. -/
theorem inv_create {i : AccountName} {m : Asset} {s s' : State}
    (hinv : Inv s) (h : create i m s = .ok s') : Inv s' := by
  unfold create at h
  dsimp only at h
  split_ifs at h with h1 h2 h3
  cases hl : lookupK m.sym.name s.stats with
  | some st => rw [hl] at h; exact Except.noConfusion h
  | none =>
      rw [hl] at h
      dsimp only at h
      cases h
      constructor
      · intro code st hst
        rw [lookupK_cons] at hst
        by_cases hc : m.sym.name = code
        · rw [if_pos hc] at hst
          cases hst
          have h0 := hinv.sum_unreg code (hc ▸ hl)
          simpa using h0
        · rw [if_neg hc] at hst
          exact hinv.sum_eq code st hst
      · intro code hnone
        rw [lookupK_cons] at hnone
        by_cases hc : m.sym.name = code
        · rw [if_pos hc] at hnone
          exact Option.noConfusion hnone
        · rw [if_neg hc] at hnone
          exact hinv.sum_unreg code hnone
      · intro code st hst
        rw [lookupK_cons] at hst
        by_cases hc : m.sym.name = code
        · rw [if_pos hc] at hst
          cases hst
          simp
        · rw [if_neg hc] at hst
          exact hinv.supply_lb code st hst
      · intro code st hst
        rw [lookupK_cons] at hst
        by_cases hc : m.sym.name = code
        · rw [if_pos hc] at hst
          cases hst
          simpa using le_of_lt h3
        · rw [if_neg hc] at hst
          exact hinv.supply_ub code st hst
      · intro code st hst
        rw [lookupK_cons] at hst
        by_cases hc : m.sym.name = code
        · rw [if_pos hc] at hst
          cases hst
          simpa using h3
        · rw [if_neg hc] at hst
          exact hinv.max_pos code st hst
      · exact hinv.bal_nonneg
      · exact hinv.acc_nodup
      · simp only [List.map_cons]
        exact List.nodup_cons.mpr ⟨lookupK_none_notin_keys hl, hinv.stats_nodup⟩

/-- Successful burn preserves the ledger invariant. -/
theorem inv_burn {f : AccountName} {q : Asset} {memo : String} {s s' : State}
    (hinv : Inv s) (h : burn f q memo s = .ok s') : Inv s' := by
  unfold burn at h
  dsimp only at h
  cases hl : lookupK q.sym.name s.stats with
  | none =>
      rw [hl] at h
      dsimp only at h
      split_ifs at h
  | some st =>
      rw [hl] at h
      dsimp only at h
      split_ifs at h with hv hm h3 h4 h5 h6
      obtain ⟨hstats, hsum, hmem, hnd⟩ := sub_balance_ok h
      constructor
      · intro code st' hst'
        rw [hstats] at hst'
        dsimp only at hst'
        by_cases hc : q.sym.name = code
        · subst hc
          rw [lookupK_modifyK_self hl] at hst'
          cases hst'
          rw [hsum, hinv.sum_eq _ st hl]
          simp [Asset.sub]
        · rw [lookupK_modifyK_ne (fun hcc => hc hcc.symm)] at hst'
          rw [hsum, hinv.sum_eq code st' hst']
          simp [hc]
      · intro code hnone
        rw [hstats] at hnone
        dsimp only at hnone
        by_cases hc : q.sym.name = code
        · subst hc
          rw [lookupK_modifyK_self hl] at hnone
          exact Option.noConfusion hnone
        · rw [lookupK_modifyK_ne (fun hcc => hc hcc.symm)] at hnone
          rw [hsum, hinv.sum_unreg code hnone]
          simp [hc]
      · intro code st' hst'
        rw [hstats] at hst'
        dsimp only at hst'
        by_cases hc : q.sym.name = code
        · subst hc
          rw [lookupK_modifyK_self hl] at hst'
          cases hst'
          dsimp only [Asset.sub]
          omega
        · rw [lookupK_modifyK_ne (fun hcc => hc hcc.symm)] at hst'
          exact hinv.supply_lb code st' hst'
      · intro code st' hst'
        rw [hstats] at hst'
        dsimp only at hst'
        by_cases hc : q.sym.name = code
        · subst hc
          rw [lookupK_modifyK_self hl] at hst'
          cases hst'
          have hub := hinv.supply_ub _ st hl
          dsimp only [Asset.sub]
          omega
        · rw [lookupK_modifyK_ne (fun hcc => hc hcc.symm)] at hst'
          exact hinv.supply_ub code st' hst'
      · intro code st' hst'
        rw [hstats] at hst'
        dsimp only at hst'
        by_cases hc : q.sym.name = code
        · subst hc
          rw [lookupK_modifyK_self hl] at hst'
          cases hst'
          exact hinv.max_pos _ st hl
        · rw [lookupK_modifyK_ne (fun hcc => hc hcc.symm)] at hst'
          exact hinv.max_pos code st' hst'
      · intro p hp
        rcases hmem p hp with hmemo2 | ⟨b, hb, hblt, hpeq⟩
        · exact hinv.bal_nonneg p hmemo2
        · subst hpeq
          dsimp only [Asset.sub]
          omega
      · exact hnd hinv.acc_nodup
      · rw [hstats]
        dsimp only
        simpa [map_fst_modifyK] using hinv.stats_nodup

/-- Common supply-increase step of signup and issue: bump the supply record by
a nonnegative, headroom-respecting quantity and credit it (auto-create on),
and the invariant survives. -/
theorem inv_mint {o rp : AccountName} {q : Asset} {st : CurrencyStat} {s s' : State}
    (hinv : Inv s) (hl : lookupK q.sym.name s.stats = some st)
    (hq0 : 0 ≤ q.amount) (hqsup : q.amount ≤ st.max_supply.amount - st.supply.amount)
    (h : add_balance o q rp true
          { s with stats := modifyK q.sym.name (fun r => { r with supply := r.supply.add q }) s.stats } = .ok s') :
    Inv s' := by
  obtain ⟨hstats, hsum, hmem, hnd⟩ := add_balance_ok h
  constructor
  · intro code st' hst'
    rw [hstats] at hst'
    dsimp only at hst'
    by_cases hc : q.sym.name = code
    · subst hc
      rw [lookupK_modifyK_self hl] at hst'
      cases hst'
      rw [hsum, hinv.sum_eq _ st hl]
      simp [Asset.add]
    · rw [lookupK_modifyK_ne (fun hcc => hc hcc.symm)] at hst'
      rw [hsum, hinv.sum_eq code st' hst']
      simp [hc]
  · intro code hnone
    rw [hstats] at hnone
    dsimp only at hnone
    by_cases hc : q.sym.name = code
    · subst hc
      rw [lookupK_modifyK_self hl] at hnone
      exact Option.noConfusion hnone
    · rw [lookupK_modifyK_ne (fun hcc => hc hcc.symm)] at hnone
      rw [hsum, hinv.sum_unreg code hnone]
      simp [hc]
  · intro code st' hst'
    rw [hstats] at hst'
    dsimp only at hst'
    by_cases hc : q.sym.name = code
    · subst hc
      rw [lookupK_modifyK_self hl] at hst'
      cases hst'
      have hlb := hinv.supply_lb _ st hl
      dsimp only [Asset.add]
      omega
    · rw [lookupK_modifyK_ne (fun hcc => hc hcc.symm)] at hst'
      exact hinv.supply_lb code st' hst'
  · intro code st' hst'
    rw [hstats] at hst'
    dsimp only at hst'
    by_cases hc : q.sym.name = code
    · subst hc
      rw [lookupK_modifyK_self hl] at hst'
      cases hst'
      dsimp only [Asset.add]
      omega
    · rw [lookupK_modifyK_ne (fun hcc => hc hcc.symm)] at hst'
      exact hinv.supply_ub code st' hst'
  · intro code st' hst'
    rw [hstats] at hst'
    dsimp only at hst'
    by_cases hc : q.sym.name = code
    · subst hc
      rw [lookupK_modifyK_self hl] at hst'
      cases hst'
      exact hinv.max_pos _ st hl
    · rw [lookupK_modifyK_ne (fun hcc => hc hcc.symm)] at hst'
      exact hinv.max_pos code st' hst'
  · intro p hp
    rcases hmem p hp with hmemo2 | hpq | ⟨b, hb, hpeq⟩
    · exact hinv.bal_nonneg p hmemo2
    · subst hpq
      exact hq0
    · subst hpeq
      have hbmem : ((o, q.sym.name), b) ∈ s.accounts := lookupK_mem hb
      have hbn := hinv.bal_nonneg _ hbmem
      dsimp only [Asset.add] at *
      omega
  · exact hnd hinv.acc_nodup
  · rw [hstats]
    dsimp only
    simpa [map_fst_modifyK] using hinv.stats_nodup

/-- Successful signup preserves the ledger invariant. -/
theorem inv_signup {o : AccountName} {q : Asset} {s s' : State}
    (hinv : Inv s) (h : signup o q s = .ok s') : Inv s' := by
  unfold signup at h
  dsimp only at h
  cases hl : lookupK q.sym.name s.stats with
  | none =>
      rw [hl] at h
      dsimp only at h
      split_ifs at h
  | some st =>
      rw [hl] at h
      dsimp only at h
      cases hacc : lookupK (o, q.sym.name) s.accounts with
      | some b =>
          rw [hacc] at h
          dsimp only at h
          split_ifs at h
      | none =>
          rw [hacc] at h
          dsimp only at h
          split_ifs at h with hsv hv h0 hsym hsup
          exact inv_mint hinv hl (le_of_eq h0.symm) hsup h

/-- Successful transfer (either variant) preserves the ledger invariant. -/
theorem inv_do_transfer {ia : AccountName → Bool} {f t : AccountName} {q : Asset}
    {memo : String} {pr : Bool} {s s' : State}
    (hinv : Inv s) (h : do_transfer ia f t q memo pr s = .ok s') : Inv s' := by
  unfold do_transfer at h
  cases hl : lookupK q.sym.name s.stats with
  | none =>
      rw [hl] at h
      dsimp only at h
      split_ifs at h
  | some st =>
      rw [hl] at h
      dsimp only at h
      split_ifs at h with hft hia hv hpos hsym hm
      cases hsub : sub_balance f q s with
      | error e =>
          rw [hsub] at h
          exact Except.noConfusion h
      | ok s1 =>
          rw [hsub] at h
          dsimp only at h
          obtain ⟨hst1, hsum1, hmem1, hnd1⟩ := sub_balance_ok hsub
          obtain ⟨hst2, hsum2, hmem2, hnd2⟩ := add_balance_ok h
          have nonneg1 : ∀ p ∈ s1.accounts, 0 ≤ p.2.amount := by
            intro p hp
            rcases hmem1 p hp with hpm | ⟨b, hb, hblt, hpeq⟩
            · exact hinv.bal_nonneg p hpm
            · subst hpeq
              dsimp only [Asset.sub]
              omega
          constructor
          · intro code st' hst'
            rw [hst2, hst1] at hst'
            rw [hsum2, hsum1, hinv.sum_eq code st' hst']
            by_cases hc : q.sym.name = code
            · rw [if_pos hc]; ring
            · rw [if_neg hc]; ring
          · intro code hnone
            rw [hst2, hst1] at hnone
            rw [hsum2, hsum1, hinv.sum_unreg code hnone]
            by_cases hc : q.sym.name = code
            · rw [if_pos hc]; ring
            · rw [if_neg hc]; ring
          · intro code st' hst'
            rw [hst2, hst1] at hst'
            exact hinv.supply_lb code st' hst'
          · intro code st' hst'
            rw [hst2, hst1] at hst'
            exact hinv.supply_ub code st' hst'
          · intro code st' hst'
            rw [hst2, hst1] at hst'
            exact hinv.max_pos code st' hst'
          · intro p hp
            rcases hmem2 p hp with hpm | hpq | ⟨b, hb, hpeq⟩
            · exact nonneg1 p hpm
            · subst hpq
              exact le_of_lt hpos
            · subst hpeq
              have hbn := nonneg1 _ (lookupK_mem hb)
              dsimp only [Asset.add] at *
              omega
          · exact hnd2 (hnd1 hinv.acc_nodup)
          · rw [hst2, hst1]
            exact hinv.stats_nodup

/-- Successful issue (either variant) preserves the ledger invariant. -/
theorem inv_do_issue {ia : AccountName → Bool} {t : AccountName} {q : Asset}
    {memo : String} {pr : Bool} {s s' : State}
    (hinv : Inv s) (h : do_issue ia t q memo pr s = .ok s') : Inv s' := by
  unfold do_issue at h
  dsimp only at h
  cases hl : lookupK q.sym.name s.stats with
  | none =>
      rw [hl] at h
      dsimp only at h
      split_ifs at h
  | some st =>
      rw [hl] at h
      dsimp only at h
      split_ifs at h with hsv hm hv hq0 hsym hsup hti
      · cases hadd : add_balance st.issuer q st.issuer true
            { s with stats := modifyK q.sym.name (fun r => { r with supply := r.supply.add q }) s.stats } with
        | error e =>
            rw [hadd] at h
            exact Except.noConfusion h
        | ok s2 =>
            rw [hadd] at h
            dsimp only at h
            cases h
            exact inv_mint hinv hl hq0 hsup hadd
      · cases hadd : add_balance st.issuer q st.issuer true
            { s with stats := modifyK q.sym.name (fun r => { r with supply := r.supply.add q }) s.stats } with
        | error e =>
            rw [hadd] at h
            exact Except.noConfusion h
        | ok s2 =>
            rw [hadd] at h
            dsimp only at h
            exact inv_do_transfer (inv_mint hinv hl hq0 hsup hadd) h

/-- Every successfully dispatched action preserves the ledger invariant. -/
theorem inv_applyOp {ia : AccountName → Bool} {op : Op} {s s' : State}
    (hinv : Inv s) (h : applyOp ia op s = .ok s') : Inv s' := by
  cases op with
  | create i m => exact inv_create hinv h
  | issue t q memo => exact inv_do_issue hinv h
  | issuefree t q memo => exact inv_do_issue hinv h
  | signup o q => exact inv_signup hinv h
  | burn f q memo => exact inv_burn hinv h
  | transfer f t q memo => exact inv_do_transfer hinv h
  | transferfree f t q memo => exact inv_do_transfer hinv h

/-- The ledger invariant holds in every state reached by a sequence of
successful operations. -/
theorem inv_runOps {ia : AccountName → Bool} {ops : List Op} {s s' : State}
    (hinv : Inv s) (h : runOps ia ops s = some s') : Inv s' := by
  induction ops generalizing s with
  | nil =>
      unfold runOps at h
      cases h
      exact hinv
  | cons op rest ih =>
      unfold runOps at h
      cases hap : applyOp ia op s with
      | ok s1 =>
          rw [hap] at h
          dsimp only at h
          exact ih (inv_applyOp hinv hap) h
      | error e =>
          rw [hap] at h
          exact Option.noConfusion h

/-- The ledger invariant holds in every state reachable from the empty ledger. -/
theorem inv_reachable {ia : AccountName → Bool} {ops : List Op} {s : State}
    (h : runOps ia ops State.empty = some s) : Inv s :=
  inv_runOps inv_empty h

/-- C1: after every sequence of create, issue, issuefree, signup, burn,
transfer and transferfree that complete successfully (starting from the empty
ledger), the sum of the balance records for a symbol equals that symbol's
recorded current supply. -/
theorem C1_sum_of_balances_eq_supply (ia : AccountName → Bool) (ops : List Op)
    (s : State) (h : runOps ia ops State.empty = some s)
    (code : String) (st : CurrencyStat) (hst : lookupK code s.stats = some st) :
    sumBal code s.accounts = st.supply.amount :=
  (inv_reachable h).sum_eq code st hst

theorem C1_witness :
    sumBal "TOK" wState.accounts =
      (CurrencyStat.mk ⟨1000000, wTOK⟩ ⟨10000000, wTOK⟩ 1).supply.amount :=
  C1_sum_of_balances_eq_supply wIA
    [Op.create 1 ⟨10000000, wTOK⟩, Op.issue 1 ⟨1000000, wTOK⟩ ""] wState (by decide)
    "TOK" ⟨⟨1000000, wTOK⟩, ⟨10000000, wTOK⟩, 1⟩ (by rfl)

/-- C2: for every symbol with a supply record, 0 ≤ current_supply ≤
max_supply holds after every sequence of successful operations (create starts
the supply at 0 with a positive maximum; issue, signup and burn keep it in
range). -/
theorem C2_supply_within_bounds (ia : AccountName → Bool) (ops : List Op)
    (s : State) (h : runOps ia ops State.empty = some s)
    (code : String) (st : CurrencyStat) (hst : lookupK code s.stats = some st) :
    0 ≤ st.supply.amount ∧ st.supply.amount ≤ st.max_supply.amount ∧
      0 < st.max_supply.amount :=
  ⟨(inv_reachable h).supply_lb code st hst, (inv_reachable h).supply_ub code st hst,
   (inv_reachable h).max_pos code st hst⟩

theorem C2_witness :
    0 ≤ (CurrencyStat.mk ⟨100, wTOK⟩ ⟨1000, wTOK⟩ 1).supply.amount ∧
    (CurrencyStat.mk ⟨100, wTOK⟩ ⟨1000, wTOK⟩ 1).supply.amount ≤
      (CurrencyStat.mk ⟨100, wTOK⟩ ⟨1000, wTOK⟩ 1).max_supply.amount ∧
    0 < (CurrencyStat.mk ⟨100, wTOK⟩ ⟨1000, wTOK⟩ 1).max_supply.amount :=
  C2_supply_within_bounds wIA
    [Op.create 1 ⟨1000, wTOK⟩, Op.issue 1 ⟨100, wTOK⟩ "",
     Op.transfer 1 2 ⟨70, wTOK⟩ ""] c4Reach (by decide)
    "TOK" ⟨⟨100, wTOK⟩, ⟨1000, wTOK⟩, 1⟩ (by rfl)

/-- C3 is false as stated: signup persists a balance record whose balance is
exactly 0.  Concretely, create followed by signup(2, 0 TOK) succeeds and
leaves account 2 with a record of balance 0, which is not strictly
positive. -/
theorem C3_counterexample :
    runOps wIA [Op.create 1 ⟨10000000, wTOK⟩, Op.signup 2 ⟨0, wTOK⟩] State.empty
      = some wSignupState ∧
    ((2, "TOK"), (⟨0, wTOK⟩ : Asset)) ∈ wSignupState.accounts ∧
    ¬ (0 < (⟨0, wTOK⟩ : Asset).amount) :=
  ⟨by decide, by decide, by decide⟩

/-- C3 (amended): in every reachable state, every balance record is
nonnegative; the bound is not strict, because signup (and a zero-quantity
issue) create records holding exactly 0, though debits do delete a record
that reaches 0. -/
theorem C3_amended_balances_nonneg (ia : AccountName → Bool) (ops : List Op)
    (s : State) (h : runOps ia ops State.empty = some s) :
    ∀ p ∈ s.accounts, 0 ≤ p.2.amount :=
  (inv_reachable h).bal_nonneg

theorem C3_witness : 0 ≤ ((⟨0, wTOK⟩ : Asset)).amount :=
  C3_amended_balances_nonneg wIA
    [Op.create 1 ⟨10000000, wTOK⟩, Op.signup 2 ⟨0, wTOK⟩] wSignupState (by decide)
    ((2, "TOK"), ⟨0, wTOK⟩) (by decide)

/-- C4 is false as stated: burn writes the decreased supply before
sub_balance validates the balance, so a burn that fails with Overdrawn
aborts in a state whose current_supply is already decremented (on chain the
host's transaction rollback, not the code's ordering, restores the
pre-state).  Concretely, from the reachable state with supply 100 where
account 1 holds 30, burn(1, 50) fails overdrawn with the supply already at
50. -/
theorem C4_counterexample :
    runOps wIA [Op.create 1 ⟨1000, wTOK⟩, Op.issue 1 ⟨100, wTOK⟩ "",
        Op.transfer 1 2 ⟨70, wTOK⟩ ""] State.empty = some c4Reach ∧
    burn 1 ⟨50, wTOK⟩ "" c4Reach = .error ("overdrawn balance", c4Dirty) ∧
    c4Dirty ≠ c4Reach ∧
    (lookupK "TOK" c4Dirty.stats).map (fun r => r.supply.amount) = some 50 ∧
    (lookupK "TOK" c4Reach.stats).map (fun r => r.supply.amount) = some 100 :=
  ⟨by decide, by rfl, by decide, by rfl, by rfl⟩

/-- C4 (amended): create and signup do leave both tables exactly as they
were whenever they fail; burn (and a transfer or issue failing inside its
credit or internal transfer) can instead fail after a mutation has landed,
as the counterexample shows. -/
theorem C4_amended_create_signup_atomic (i o : AccountName) (m q : Asset)
    (s : State) (e : String × State) :
    (create i m s = .error e → e.2 = s) ∧ (signup o q s = .error e → e.2 = s) := by
  constructor
  · intro h
    unfold create at h
    dsimp only at h
    split_ifs at h
    all_goals try (cases h; rfl)
    cases hl : lookupK m.sym.name s.stats with
    | some st =>
        rw [hl] at h
        dsimp only at h
        cases h; rfl
    | none =>
        rw [hl] at h
        dsimp only at h
        exact Except.noConfusion h
  · intro h
    unfold signup at h
    dsimp only at h
    cases hl : lookupK q.sym.name s.stats with
    | none =>
        rw [hl] at h
        dsimp only at h
        split_ifs at h
        all_goals (cases h; rfl)
    | some st =>
        rw [hl] at h
        dsimp only at h
        cases hacc : lookupK (o, q.sym.name) s.accounts with
        | some b =>
            rw [hacc] at h
            dsimp only at h
            split_ifs at h
            all_goals (cases h; rfl)
        | none =>
            rw [hacc] at h
            dsimp only at h
            split_ifs at h
            all_goals try (cases h; rfl)
            unfold add_balance at h
            dsimp only at h
            rw [hacc] at h
            dsimp only at h
            simp at h

theorem C4_witness :
    (("invalid symbol name", State.empty) : String × State).2 = State.empty :=
  (C4_amended_create_signup_atomic 1 1 ⟨5, ⟨"tok", 4⟩⟩ ⟨0, wTOK⟩ State.empty
    ("invalid symbol name", State.empty)).1 (by rfl)

/-- A credit with pay_ram set always succeeds. -/
theorem add_balance_pay_ram_ok (o rp : AccountName) (v : Asset) (s : State) :
    ∃ s', add_balance o v rp true s = .ok s' := by
  unfold add_balance
  cases hl : lookupK (o, v.sym.name) s.accounts with
  | none =>
      exact ⟨{ s with accounts := ((o, v.sym.name), v) :: s.accounts },
        by dsimp only; rw [if_neg (by simp)]⟩
  | some b =>
      exact ⟨{ s with accounts := modifyK (o, v.sym.name) (fun bb => bb.add v) s.accounts }, rfl⟩

/-- A successful debit leaves every other key's record untouched. -/
theorem sub_balance_lookup_other {owner : AccountName} {value : Asset}
    {s s' : State} (h : sub_balance owner value s = .ok s')
    (k : AccountName × String) (hk : k ≠ (owner, value.sym.name)) :
    lookupK k s'.accounts = lookupK k s.accounts := by
  unfold sub_balance at h
  cases hl : lookupK (owner, value.sym.name) s.accounts with
  | none => rw [hl] at h; exact Except.noConfusion h
  | some bal =>
      rw [hl] at h
      dsimp only at h
      split_ifs at h with h1 h2
      · cases h
        exact lookupK_eraseK_ne hk
      · cases h
        exact lookupK_modifyK_ne hk

/-- C5: with the symbol registered and the other issue preconditions met, the
mint passes the supply check exactly when the quantity does not exceed
max_supply minus current_supply; past the boundary it fails with the
SupplyExceeded message, at the boundary it succeeds. -/
theorem C5_issue_supply_boundary (ia : AccountName → Bool) (q : Asset)
    (memo : String) (pr : Bool) (s : State) (st : CurrencyStat)
    (hreg : lookupK q.sym.name s.stats = some st)
    (hval : q.is_valid = true) (hq0 : 0 ≤ q.amount)
    (hmemo : memo.utf8ByteSize ≤ 256) (hsym : q.sym = st.supply.sym) :
    (resOk (do_issue ia st.issuer q memo pr s) = true ↔
        q.amount ≤ st.max_supply.amount - st.supply.amount) ∧
    (st.max_supply.amount - st.supply.amount < q.amount →
        do_issue ia st.issuer q memo pr s =
          .error ("quantity exceeds available supply", s)) := by
  have hsv : q.sym.is_valid = true := by
    unfold Asset.is_valid at hval
    simp only [Bool.and_eq_true] at hval
    exact hval.2
  unfold do_issue
  dsimp only
  rw [hreg]
  dsimp only
  rw [if_neg (by simp [hsv]), if_neg (by simpa using hmemo),
      if_neg (by simp [hval]), if_neg (by simpa using hq0),
      if_neg (by simp [hsym])]
  by_cases hle : q.amount ≤ st.max_supply.amount - st.supply.amount
  · rw [if_neg (by simpa using hle)]
    obtain ⟨s2, hs2⟩ := add_balance_pay_ram_ok st.issuer st.issuer q
      { s with stats := modifyK q.sym.name (fun r => { r with supply := r.supply.add q }) s.stats }
    rw [hs2]
    dsimp only
    rw [if_pos rfl]
    constructor
    · simp [resOk, hle]
    · intro hgt
      exact absurd hle (not_le.mpr hgt)
  · rw [if_pos (by simpa using hle)]
    constructor
    · simp [resOk, hle]
    · intro hgt
      rfl

theorem C5_witness :
    resOk (do_issue wIA 1 ⟨9600000, wTOK⟩ "" true c5State) = true ∧
    do_issue wIA 1 ⟨9610000, wTOK⟩ "" true c5State =
      .error ("quantity exceeds available supply", c5State) := by
  constructor
  · exact (C5_issue_supply_boundary wIA ⟨9600000, wTOK⟩ "" true c5State
      ⟨⟨400000, wTOK⟩, ⟨10000000, wTOK⟩, 1⟩ rfl (by decide) (by decide) (by decide)
      rfl).1.mpr (by decide)
  · exact (C5_issue_supply_boundary wIA ⟨9610000, wTOK⟩ "" true c5State
      ⟨⟨400000, wTOK⟩, ⟨10000000, wTOK⟩, 1⟩ rfl (by decide) (by decide) (by decide)
      rfl).2 (by decide)

/-- C6: a debit fails NotFound when no record exists for the owner and
symbol, fails Overdrawn when the record holds strictly less than the amount,
erases the record when the balance equals the amount exactly, and otherwise
subtracts the amount leaving the record in place with every other record
untouched. -/
theorem C6_debit_spec (owner : AccountName) (value : Asset) (s : State)
    (hnd : (s.accounts.map Prod.fst).Nodup) :
    (lookupK (owner, value.sym.name) s.accounts = none →
        sub_balance owner value s = .error ("no balance object found", s)) ∧
    (∀ b, lookupK (owner, value.sym.name) s.accounts = some b →
      (b.amount < value.amount →
          sub_balance owner value s = .error ("overdrawn balance", s)) ∧
      (b.amount = value.amount →
          sub_balance owner value s =
            .ok { s with accounts := eraseK (owner, value.sym.name) s.accounts } ∧
          lookupK (owner, value.sym.name)
              (eraseK (owner, value.sym.name) s.accounts) = none ∧
          ∀ k, k ≠ (owner, value.sym.name) →
            lookupK k (eraseK (owner, value.sym.name) s.accounts) =
              lookupK k s.accounts) ∧
      (value.amount < b.amount →
          sub_balance owner value s =
            .ok { s with accounts := modifyK (owner, value.sym.name) (fun bb => bb.sub value) s.accounts } ∧
          lookupK (owner, value.sym.name)
              (modifyK (owner, value.sym.name) (fun bb => bb.sub value) s.accounts) =
            some (b.sub value) ∧
          ∀ k, k ≠ (owner, value.sym.name) →
            lookupK k (modifyK (owner, value.sym.name) (fun bb => bb.sub value) s.accounts) =
              lookupK k s.accounts)) := by
  constructor
  · intro hnone
    unfold sub_balance
    rw [hnone]
  · intro b hb
    refine ⟨?_, ?_, ?_⟩
    · intro hlt
      unfold sub_balance
      rw [hb]
      dsimp only
      rw [if_pos (not_le.mpr hlt)]
    · intro heq
      refine ⟨?_, lookupK_eraseK_self hnd, fun k hk => lookupK_eraseK_ne hk⟩
      unfold sub_balance
      rw [hb]
      dsimp only
      rw [if_neg (by simp [heq]), if_pos heq]
    · intro hlt
      refine ⟨?_, lookupK_modifyK_self hb, fun k hk => lookupK_modifyK_ne hk⟩
      unfold sub_balance
      rw [hb]
      dsimp only
      rw [if_neg (by simpa using hlt.le), if_neg (ne_of_gt hlt)]

theorem C6_witness :
    sub_balance 1 ⟨40, wTOK⟩ c6State = .error ("overdrawn balance", c6State) :=
  ((C6_debit_spec 1 ⟨40, wTOK⟩ c6State (by decide)).2 ⟨30, wTOK⟩ (by rfl)).1 (by decide)

/-- C7: when the destination has no balance record, transferfree
(allow_create false) fails with the NoBalanceObject message while transfer
(allow_create true) creates a record holding exactly the transferred amount;
when a destination record exists, the amount is added to it under either
flag. -/
theorem C7_transfer_destination_spec (ia : AccountName → Bool)
    (f t : AccountName) (q : Asset) (memo : String) (s s1 : State)
    (st : CurrencyStat)
    (hft : f ≠ t) (hia : ia t = true)
    (hreg : lookupK q.sym.name s.stats = some st)
    (hval : q.is_valid = true) (hpos : 0 < q.amount)
    (hsym : q.sym = st.supply.sym) (hmemo : memo.utf8ByteSize ≤ 256)
    (hsub : sub_balance f q s = .ok s1) :
    (lookupK (t, q.sym.name) s.accounts = none →
        (do_transfer ia f t q memo false s =
            .error ("destination account does not have balance", s1)) ∧
        ∃ s2, do_transfer ia f t q memo true s = .ok s2 ∧
          lookupK (t, q.sym.name) s2.accounts = some q) ∧
    (∀ b, lookupK (t, q.sym.name) s.accounts = some b → ∀ pr,
        ∃ s2, do_transfer ia f t q memo pr s = .ok s2 ∧
          lookupK (t, q.sym.name) s2.accounts = some (b.add q)) := by
  have hkey : (t, q.sym.name) ≠ (f, q.sym.name) :=
    fun hc => hft ((congrArg Prod.fst hc).symm)
  have hs1t : lookupK (t, q.sym.name) s1.accounts = lookupK (t, q.sym.name) s.accounts :=
    sub_balance_lookup_other hsub _ hkey
  have hdt : ∀ pr, do_transfer ia f t q memo pr s = add_balance t q f pr s1 := by
    intro pr
    unfold do_transfer
    rw [hreg]
    dsimp only
    rw [if_neg (by simpa using hft), if_neg (by simp [hia]), if_neg (by simp [hval]),
        if_neg (by simpa using hpos), if_neg (by simp [hsym]), if_neg (by simpa using hmemo)]
    rw [hsub]
  constructor
  · intro hdest
    have hdest1 : lookupK (t, q.sym.name) s1.accounts = none := hs1t.trans hdest
    constructor
    · rw [hdt false]
      unfold add_balance
      rw [hdest1]
      dsimp only
      rw [if_pos (by simp)]
    · refine ⟨{ s1 with accounts := ((t, q.sym.name), q) :: s1.accounts }, ?_, ?_⟩
      · rw [hdt true]
        unfold add_balance
        rw [hdest1]
        dsimp only
        rw [if_neg (by simp)]
      · show lookupK (t, q.sym.name) (((t, q.sym.name), q) :: s1.accounts) = some q
        rw [lookupK_cons, if_pos rfl]
  · intro b hb pr
    have hb1 : lookupK (t, q.sym.name) s1.accounts = some b := hs1t.trans hb
    refine ⟨{ s1 with accounts := modifyK (t, q.sym.name) (fun bb => bb.add q) s1.accounts }, ?_, ?_⟩
    · rw [hdt pr]
      unfold add_balance
      rw [hb1]
    · exact lookupK_modifyK_self hb1

theorem C7_witness :
    do_transfer wIA 1 2 ⟨400000, wTOK⟩ "" false wState =
      .error ("destination account does not have balance", c7s1) :=
  ((C7_transfer_destination_spec wIA 1 2 ⟨400000, wTOK⟩ "" wState c7s1
      ⟨⟨1000000, wTOK⟩, ⟨10000000, wTOK⟩, 1⟩ (by decide) rfl rfl (by decide)
      (by decide) rfl (by decide) (by rfl)).1 (by rfl)).1

/-- C8: signup succeeds only with a quantity of exactly 0 and no existing
record for the owner and symbol; a duplicate signup fails with AlreadyExists;
on success the supply table is unchanged and a record with balance 0 is
created for the owner. -/
theorem C8_signup_spec (o : AccountName) (q : Asset) (s : State) :
    (∀ s', signup o q s = .ok s' →
        q.amount = 0 ∧ lookupK (o, q.sym.name) s.accounts = none ∧
        s'.stats = s.stats ∧ lookupK (o, q.sym.name) s'.accounts = some q) ∧
    (q.sym.is_valid = true → ∀ st, lookupK q.sym.name s.stats = some st →
      ∀ b, lookupK (o, q.sym.name) s.accounts = some b →
        signup o q s = .error ("you have already signed up", s)) := by
  constructor
  · intro s' h
    unfold signup at h
    dsimp only at h
    cases hl : lookupK q.sym.name s.stats with
    | none =>
        rw [hl] at h
        dsimp only at h
        split_ifs at h
    | some st =>
        rw [hl] at h
        dsimp only at h
        cases hacc : lookupK (o, q.sym.name) s.accounts with
        | some b =>
            rw [hacc] at h
            dsimp only at h
            split_ifs at h
        | none =>
            rw [hacc] at h
            dsimp only at h
            split_ifs at h with hsv2 hv h0 hsym2 hsup
            unfold add_balance at h
            dsimp only at h
            rw [hacc] at h
            dsimp only at h
            rw [if_neg (by simp)] at h
            cases h
            refine ⟨h0, rfl, ?_, ?_⟩
            · show modifyK q.sym.name
                (fun r => { r with supply := r.supply.add q }) s.stats = s.stats
              refine modifyK_congr_id ?_
              intro v
              cases v with
              | mk sup mx iss =>
                  cases sup with
                  | mk amt sy => simp [Asset.add, h0]
            · show lookupK (o, q.sym.name)
                (((o, q.sym.name), q) :: s.accounts) = some q
              rw [lookupK_cons, if_pos rfl]
  · intro hsv st hst b hb
    unfold signup
    dsimp only
    rw [if_neg (by simp [hsv]), hst]
    dsimp only
    rw [hb]

theorem C8_witness :
    signup 2 ⟨0, wTOK⟩ wSignupState =
      .error ("you have already signed up", wSignupState) :=
  (C8_signup_spec 2 ⟨0, wTOK⟩ wSignupState).2 (by decide)
    ⟨⟨0, wTOK⟩, ⟨10000000, wTOK⟩, 1⟩ rfl ⟨0, wTOK⟩ rfl

/-- A successful transfer has passed every one of its checks. -/
theorem do_transfer_ok_checks {ia : AccountName → Bool} {f t : AccountName}
    {q : Asset} {memo : String} {pr : Bool} {s s' : State}
    (h : do_transfer ia f t q memo pr s = .ok s') :
    f ≠ t ∧ ia t = true ∧ q.is_valid = true ∧ 0 < q.amount ∧
      memo.utf8ByteSize ≤ 256 ∧
      ∃ st, lookupK q.sym.name s.stats = some st ∧ q.sym = st.supply.sym := by
  unfold do_transfer at h
  cases hl : lookupK q.sym.name s.stats with
  | none =>
      rw [hl] at h
      dsimp only at h
      split_ifs at h
  | some st =>
      rw [hl] at h
      dsimp only at h
      split_ifs at h with hft hia hval hpos hsym hmemo
      exact ⟨hft, hia, hval, hpos, hmemo, st, rfl, hsym⟩

/-- With every check discharged, a transfer is the debit followed by the
credit. -/
theorem do_transfer_eq {ia : AccountName → Bool} {f t : AccountName} {q : Asset}
    {memo : String} {s : State} {st : CurrencyStat} (pr : Bool)
    (hft : f ≠ t) (hia : ia t = true)
    (hreg : lookupK q.sym.name s.stats = some st)
    (hval : q.is_valid = true) (hpos : 0 < q.amount)
    (hsym : q.sym = st.supply.sym) (hmemo : memo.utf8ByteSize ≤ 256) :
    do_transfer ia f t q memo pr s =
      match sub_balance f q s with
      | .error e => .error e
      | .ok s1 => add_balance t q f pr s1 := by
  unfold do_transfer
  rw [hreg]
  dsimp only
  rw [if_neg (by simpa using hft), if_neg (by simp [hia]), if_neg (by simp [hval]),
      if_neg (by simpa using hpos), if_neg (by simp [hsym]), if_neg (by simpa using hmemo)]

/-- A pay_ram transfer whose checks pass and whose source holds enough always
succeeds. -/
theorem do_transfer_total (ia : AccountName → Bool) (f t : AccountName)
    (q : Asset) (memo : String) (s : State) (st : CurrencyStat)
    (hft : f ≠ t) (hia : ia t = true)
    (hreg : lookupK q.sym.name s.stats = some st)
    (hval : q.is_valid = true) (hpos : 0 < q.amount)
    (hsym : q.sym = st.supply.sym) (hmemo : memo.utf8ByteSize ≤ 256)
    (bf : Asset) (hbf : lookupK (f, q.sym.name) s.accounts = some bf)
    (hge : q.amount ≤ bf.amount) :
    ∃ s', do_transfer ia f t q memo true s = .ok s' := by
  rw [do_transfer_eq true hft hia hreg hval hpos hsym hmemo]
  by_cases heq : bf.amount = q.amount
  · have hsub : sub_balance f q s =
        .ok { s with accounts := eraseK (f, q.sym.name) s.accounts } := by
      unfold sub_balance
      rw [hbf]
      dsimp only
      rw [if_neg (by simpa using hge), if_pos heq]
    rw [hsub]
    exact add_balance_pay_ram_ok t f q _
  · have hlt : q.amount < bf.amount := lt_of_le_of_ne hge (fun hc => heq hc.symm)
    have hsub : sub_balance f q s =
        .ok { s with accounts := modifyK (f, q.sym.name) (fun bb => bb.sub q) s.accounts } := by
      unfold sub_balance
      rw [hbf]
      dsimp only
      rw [if_neg (by simpa using hge), if_neg (ne_of_gt hlt)]
    rw [hsub]
    exact add_balance_pay_ram_ok t f q _

/-- The balance-level effect of a successful pay_ram transfer: stats and key
distinctness preserved, the source drops by the amount (its record deleted if
it hits zero), the destination record exists afterwards holding its old
balance plus the amount, and every other record is untouched. -/
theorem do_transfer_balance_spec {ia : AccountName → Bool} {f t : AccountName}
    {q : Asset} {memo : String} {s s' : State}
    (hnd : (s.accounts.map Prod.fst).Nodup)
    (h : do_transfer ia f t q memo true s = .ok s') :
    s'.stats = s.stats ∧
    (s'.accounts.map Prod.fst).Nodup ∧
    balanceOf s' f q.sym.name = balanceOf s f q.sym.name - q.amount ∧
    (∃ bb, lookupK (t, q.sym.name) s'.accounts = some bb ∧
        bb.amount = balanceOf s t q.sym.name + q.amount) ∧
    (∀ k, k ≠ (f, q.sym.name) → k ≠ (t, q.sym.name) →
        lookupK k s'.accounts = lookupK k s.accounts) := by
  obtain ⟨hft, hia, hval, hpos, hmemo, st, hreg, hsym⟩ := do_transfer_ok_checks h
  have hkey : (t, q.sym.name) ≠ (f, q.sym.name) :=
    fun hc => hft ((congrArg Prod.fst hc).symm)
  have hkeyft : (f, q.sym.name) ≠ (t, q.sym.name) :=
    fun hc => hft (congrArg Prod.fst hc)
  rw [do_transfer_eq true hft hia hreg hval hpos hsym hmemo] at h
  cases hsub : sub_balance f q s with
  | error e => rw [hsub] at h; exact Except.noConfusion h
  | ok sm =>
      rw [hsub] at h
      dsimp only at h
      unfold sub_balance at hsub
      cases hla : lookupK (f, q.sym.name) s.accounts with
      | none => rw [hla] at hsub; exact Except.noConfusion hsub
      | some ba =>
          rw [hla] at hsub
          dsimp only at hsub
          split_ifs at hsub with hge heq
          · cases hsub
            unfold add_balance at h
            dsimp only at h
            cases hlb : lookupK (t, q.sym.name) (eraseK (f, q.sym.name) s.accounts) with
            | none =>
                rw [hlb] at h
                dsimp only at h
                rw [if_neg (by simp)] at h
                cases h
                have hts : lookupK (t, q.sym.name) s.accounts = none :=
                  (lookupK_eraseK_ne hkey).symm.trans hlb
                refine ⟨rfl, ?_, ?_, ⟨q, ?_, ?_⟩, ?_⟩
                · exact List.nodup_cons.mpr ⟨lookupK_none_notin_keys hlb,
                    List.Nodup.sublist map_fst_eraseK_sublist hnd⟩
                · unfold balanceOf
                  dsimp only
                  rw [lookupK_cons, if_neg hkey, lookupK_eraseK_self hnd, hla]
                  simp only [Option.map_none', Option.map_some', Option.getD_none,
                    Option.getD_some]
                  omega
                · show lookupK (t, q.sym.name) (((t, q.sym.name), q) :: _) = some q
                  rw [lookupK_cons, if_pos rfl]
                · unfold balanceOf
                  rw [hts]
                  simp
                · intro k hkf hkt
                  dsimp only
                  rw [lookupK_cons, if_neg (fun hc => hkt hc.symm), lookupK_eraseK_ne hkf]
            | some bb =>
                rw [hlb] at h
                dsimp only at h
                cases h
                have hts : lookupK (t, q.sym.name) s.accounts = some bb :=
                  (lookupK_eraseK_ne hkey).symm.trans hlb
                refine ⟨rfl, ?_, ?_, ⟨bb.add q, lookupK_modifyK_self hlb, ?_⟩, ?_⟩
                · simpa [map_fst_modifyK] using
                    List.Nodup.sublist map_fst_eraseK_sublist hnd
                · unfold balanceOf
                  dsimp only
                  rw [lookupK_modifyK_ne hkeyft, lookupK_eraseK_self hnd, hla]
                  simp only [Option.map_none', Option.map_some', Option.getD_none,
                    Option.getD_some]
                  omega
                · unfold balanceOf
                  rw [hts]
                  simp [Asset.add]
                · intro k hkf hkt
                  dsimp only
                  rw [lookupK_modifyK_ne hkt, lookupK_eraseK_ne hkf]
          · cases hsub
            have hlt : q.amount < ba.amount :=
              lt_of_le_of_ne hge (fun hc => heq hc.symm)
            have hM_f : lookupK (f, q.sym.name)
                (modifyK (f, q.sym.name) (fun b => b.sub q) s.accounts) =
                some (ba.sub q) := lookupK_modifyK_self hla
            unfold add_balance at h
            dsimp only at h
            cases hlb : lookupK (t, q.sym.name)
                (modifyK (f, q.sym.name) (fun b => b.sub q) s.accounts) with
            | none =>
                rw [hlb] at h
                dsimp only at h
                rw [if_neg (by simp)] at h
                cases h
                have hts : lookupK (t, q.sym.name) s.accounts = none :=
                  (lookupK_modifyK_ne hkey).symm.trans hlb
                refine ⟨rfl, ?_, ?_, ⟨q, ?_, ?_⟩, ?_⟩
                · refine List.nodup_cons.mpr ⟨lookupK_none_notin_keys hlb, ?_⟩
                  simpa [map_fst_modifyK] using hnd
                · unfold balanceOf
                  dsimp only
                  rw [lookupK_cons, if_neg hkey, hM_f, hla]
                  simp only [Option.map_some', Option.getD_some]
                  dsimp only [Asset.sub]
                · show lookupK (t, q.sym.name) (((t, q.sym.name), q) :: _) = some q
                  rw [lookupK_cons, if_pos rfl]
                · unfold balanceOf
                  rw [hts]
                  simp
                · intro k hkf hkt
                  dsimp only
                  rw [lookupK_cons, if_neg (fun hc => hkt hc.symm), lookupK_modifyK_ne hkf]
            | some bb =>
                rw [hlb] at h
                dsimp only at h
                cases h
                have hts : lookupK (t, q.sym.name) s.accounts = some bb :=
                  (lookupK_modifyK_ne hkey).symm.trans hlb
                refine ⟨rfl, ?_, ?_, ⟨bb.add q, lookupK_modifyK_self hlb, ?_⟩, ?_⟩
                · simpa [map_fst_modifyK] using hnd
                · unfold balanceOf
                  dsimp only
                  rw [lookupK_modifyK_ne hkeyft, hM_f, hla]
                  simp only [Option.map_some', Option.getD_some]
                  dsimp only [Asset.sub]
                · unfold balanceOf
                  rw [hts]
                  simp [Asset.add]
                · intro k hkf hkt
                  dsimp only
                  rw [lookupK_modifyK_ne hkt, lookupK_modifyK_ne hkf]

/-- C9: a successful transfer of n from A to B followed immediately by a
transfer of n back from B to A restores both A's and B's balances for the
symbol, including the cases where a record is deleted at zero and recreated
by the return credit.  The key-distinctness and nonnegative-balance
hypotheses hold in every reachable state. -/
theorem C9_transfer_round_trip (ia : AccountName → Bool) (a b : AccountName)
    (q : Asset) (memo : String) (s s1 : State)
    (hnd : (s.accounts.map Prod.fst).Nodup)
    (hbn : ∀ bb, lookupK (b, q.sym.name) s.accounts = some bb → 0 ≤ bb.amount)
    (hiaA : ia a = true)
    (h1 : do_transfer ia a b q memo true s = .ok s1) :
    ∃ s2, do_transfer ia b a q memo true s1 = .ok s2 ∧
      balanceOf s2 a q.sym.name = balanceOf s a q.sym.name ∧
      balanceOf s2 b q.sym.name = balanceOf s b q.sym.name := by
  obtain ⟨hab, hiaB, hval, hpos, hmemo, st, hreg, hsym⟩ := do_transfer_ok_checks h1
  obtain ⟨hst1, hnd1, hfbal, ⟨bb1, hbb1, hbb1amt⟩, hother1⟩ :=
    do_transfer_balance_spec hnd h1
  have hreg1 : lookupK q.sym.name s1.stats = some st := by rw [hst1]; exact hreg
  have hq_le : q.amount ≤ bb1.amount := by
    have h0 : 0 ≤ balanceOf s b q.sym.name := by
      unfold balanceOf
      cases hx : lookupK (b, q.sym.name) s.accounts with
      | none => simp
      | some v => simpa using hbn v hx
    omega
  obtain ⟨s2, hs2⟩ := do_transfer_total ia b a q memo s1 st
    (fun hc => hab hc.symm) hiaA hreg1 hval hpos hsym hmemo bb1 hbb1 hq_le
  obtain ⟨hst2, hnd2, hbbal2, ⟨aa2, haa2, haa2amt⟩, hother2⟩ :=
    do_transfer_balance_spec hnd1 hs2
  refine ⟨s2, hs2, ?_, ?_⟩
  · have hself : balanceOf s2 a q.sym.name = aa2.amount := by
      unfold balanceOf
      rw [haa2]
      simp
    omega
  · have hs1b : balanceOf s1 b q.sym.name = bb1.amount := by
      unfold balanceOf
      rw [hbb1]
      simp
    omega

theorem C9_witness :
    (do_transfer wIA 2 1 ⟨400000, wTOK⟩ "" true c9s1).toOption.map
        (fun s2 => (balanceOf s2 1 "TOK", balanceOf s2 2 "TOK")) =
      some (balanceOf wState 1 "TOK", balanceOf wState 2 "TOK") := by
  obtain ⟨s2, hs2, hA, hB⟩ := C9_transfer_round_trip wIA 1 2 ⟨400000, wTOK⟩ ""
    wState c9s1 (by decide) (fun bb hbb => Option.noConfusion hbb) (by rfl) (by rfl)
  rw [hs2]
  simp only [Except.toOption, Option.map_some']
  have hA2 : balanceOf s2 1 "TOK" = balanceOf wState 1 "TOK" := hA
  have hB2 : balanceOf s2 2 "TOK" = balanceOf wState 2 "TOK" := hB
  rw [hA2, hB2]

/-- C10: issuing a quantity of exactly 0 succeeds when the destination is
the issuer, but fails when the destination differs from the issuer, because
the internal re-dispatch as a transfer requires a strictly positive
quantity. -/
theorem C10_issue_zero_destination (ia : AccountName → Bool) (t : AccountName)
    (q : Asset) (memo : String) (pr : Bool) (s : State) (st : CurrencyStat)
    (hreg : lookupK q.sym.name s.stats = some st)
    (hval : q.is_valid = true) (h0 : q.amount = 0)
    (hmemo : memo.utf8ByteSize ≤ 256) (hsym : q.sym = st.supply.sym)
    (hsup : st.supply.amount ≤ st.max_supply.amount) (hia : ia t = true) :
    (t = st.issuer → ∃ s', do_issue ia t q memo pr s = .ok s') ∧
    (t ≠ st.issuer → ∃ sd, do_issue ia t q memo pr s =
        .error ("must transfer positive quantity", sd)) := by
  have hsv : q.sym.is_valid = true := by
    unfold Asset.is_valid at hval
    simp only [Bool.and_eq_true] at hval
    exact hval.2
  unfold do_issue
  dsimp only
  rw [hreg]
  dsimp only
  rw [if_neg (by simp [hsv]), if_neg (by simpa using hmemo), if_neg (by simp [hval]),
      if_neg (by simp [h0]), if_neg (by simp [hsym]),
      if_neg (by simp only [h0, not_not]; omega)]
  obtain ⟨s2, hs2⟩ := add_balance_pay_ram_ok st.issuer st.issuer q
    { s with stats := modifyK q.sym.name (fun r => { r with supply := r.supply.add q }) s.stats }
  rw [hs2]
  dsimp only
  constructor
  · intro hti
    rw [if_pos hti]
    exact ⟨s2, rfl⟩
  · intro hti
    rw [if_neg hti]
    refine ⟨s2, ?_⟩
    unfold do_transfer
    have hreg2 : lookupK q.sym.name s2.stats =
        some { st with supply := st.supply.add q } := by
      have hst2eq := (add_balance_ok hs2).1
      rw [hst2eq]
      exact lookupK_modifyK_self hreg
    rw [hreg2]
    dsimp only
    rw [if_neg (by simpa using (Ne.symm hti)), if_neg (by simp [hia]),
        if_neg (by simp [hval]), if_pos (by simp [h0])]

theorem C10_witness :
    resOk (do_issue wIA 1 ⟨0, wTOK⟩ "" true c5State) = true ∧
    resOk (do_issue wIA 2 ⟨0, wTOK⟩ "" true c5State) = false := by
  constructor
  · obtain ⟨s', hs⟩ := (C10_issue_zero_destination wIA 1 ⟨0, wTOK⟩ "" true c5State
      ⟨⟨400000, wTOK⟩, ⟨10000000, wTOK⟩, 1⟩ rfl (by decide) rfl (by decide) rfl
      (by decide) rfl).1 rfl
    rw [hs]
    rfl
  · obtain ⟨sd, hsd⟩ := (C10_issue_zero_destination wIA 2 ⟨0, wTOK⟩ "" true c5State
      ⟨⟨400000, wTOK⟩, ⟨10000000, wTOK⟩, 1⟩ rfl (by decide) rfl (by decide) rfl
      (by decide) rfl).2 (by decide)
    rw [hsd]
    rfl

end Dextoken
